import Mathlib

/-!
Shallow embedding of the parallel batch question processor, the answer
cache and the tool wrappers of this repository (src/app_optimized.py,
src/tools.py), together with theorems settling the specification claims.

Modelling conventions:
* Python text is modelled as `String` for the batch runner and as
  `List Char` for the character-level text tools.
* Exceptions are modelled with `Except`: a value `Except.error e` stands
  for an exception with message `e` escaping the modelled code.
* External collaborators (SymPy, the wikipedia library, the LLM agent)
  are parameters of the definitions, given as functions returning
  `Except` values or explicit outcome types.
* Agent invocations are counted explicitly (the `calls` fields), so that
  claims about how often the agent is invoked are stateable.
-/

/-! ## Character-level string helpers (Python string operations) -/

/-- Python `str.strip` whitespace test (space, tab, newline, carriage
return, vertical tab, form feed). -/
def isSpaceChar (c : Char) : Bool :=
  c = ' ' || c = '\t' || c = '\n' || c = '\r' || c = Char.ofNat 11 || c = Char.ofNat 12

/-- Python `str.strip()`: drop whitespace from both ends. -/
def pyStrip (s : List Char) : List Char :=
  ((s.dropWhile isSpaceChar).reverse.dropWhile isSpaceChar).reverse

/-- `pat` is an initial segment of `s`. -/
def leadsWith : List Char → List Char → Bool
  | [], _ => true
  | _ :: _, [] => false
  | p :: ps, c :: cs => p = c && leadsWith ps cs

/-- Python `pat in s`: `pat` occurs contiguously somewhere in `s`. -/
def hasSub (pat : List Char) : List Char → Bool
  | [] => leadsWith pat []
  | c :: rest => leadsWith pat (c :: rest) || hasSub pat rest

/-- Python `str.lower` (ASCII range, as exercised by the tools). -/
def toLowerL (s : List Char) : List Char := s.map Char.toLower

/-- Python `str.upper` (ASCII range, as exercised by the tools). -/
def toUpperL (s : List Char) : List Char := s.map Char.toUpper

/-- Python `sep.join(parts)`. -/
def joinSep (sep : List Char) : List (List Char) → List Char
  | [] => []
  | [x] => x
  | x :: y :: rest => x ++ sep ++ joinSep sep (y :: rest)

/-- Worker for `replaceAll`.  The fuel argument starts at the length of
the scanned list and every step consumes at least one character, so the
fuel never runs out before the list does. -/
def replaceAllGo (pat : List Char) : Nat → List Char → List Char
  | _, [] => []
  | 0, s => s
  | fuel + 1, c :: rest =>
    if leadsWith pat (c :: rest) && !pat.isEmpty then
      replaceAllGo pat fuel (rest.drop (pat.length - 1))
    else
      c :: replaceAllGo pat fuel rest

/-- Python `s.replace(pat, '')`: delete every (leftmost, non-overlapping)
occurrence of `pat` in `s`. -/
def replaceAll (pat s : List Char) : List Char :=
  replaceAllGo pat s.length s

/-- ASCII digit test (`\d` over the inputs the tool handles). -/
def isDigitC (c : Char) : Bool := '0' ≤ c && c ≤ '9'

/-- One attempt of the regex `-?\d+\.?\d*` at the head of `s`: on success
returns the matched characters and the remainder of `s`. -/
def matchNum (s : List Char) : Option (List Char × List Char) :=
  let (neg, s1) :=
    match s with
    | '-' :: t => (true, t)
    | _ => (false, s)
  let d1 := s1.takeWhile isDigitC
  if d1.isEmpty then none
  else
    let s2 := s1.drop d1.length
    let (dot, s3) :=
      match s2 with
      | '.' :: t => ([('.' : Char)], t)
      | _ => (([] : List Char), s2)
    let d2 := s3.takeWhile isDigitC
    some ((if neg then ['-'] else []) ++ d1 ++ dot ++ d2, s3.drop d2.length)

/-- Worker for `findNums`; fuelled like `replaceAllGo` (a successful
match always consumes at least one character). -/
def findNumsGo : Nat → List Char → List (List Char)
  | _, [] => []
  | 0, _ => []
  | fuel + 1, c :: rest =>
    match matchNum (c :: rest) with
    | some (m, r) => m :: findNumsGo fuel r
    | none => findNumsGo fuel rest

/-- Python `re.findall(r'-?\d+\.?\d*', s)`. -/
def findNums (s : List Char) : List (List Char) :=
  findNumsGo s.length s

/-- Python `len(s.split())`: number of maximal whitespace-free runs. -/
def countWords (s : List Char) : Nat :=
  (s.foldl
    (fun (acc : Nat × Bool) c =>
      if isSpaceChar c then (acc.1, false)
      else (if acc.2 then acc.1 else acc.1 + 1, true))
    (0, false)).1

/-- Decimal rendering of a natural number, as Python `str(n)`. -/
def natToChars (n : Nat) : List Char := (toString n).toList

/-! ## Tool wrappers (src/tools.py) -/

/-- Operation tags recognised by `TextPreprocesser.forward`. -/
def revTag : List Char := "reverse:".toList

def upperTag : List Char := "upper:".toList

def lowerTag : List Char := "lower:".toList

def countTag : List Char := "count:".toList

def extractTag : List Char := "extract_numbers:".toList

def wordCountTag : List Char := "word_count:".toList

def oppositeWord : List Char := "opposite".toList

def leftWord : List Char := "left".toList

def rightWord : List Char := "right".toList

/-- `TextPreprocesser.forward` (src/tools.py lines 75-115).  The
dispatcher tries the operation tags in order; inside the `reverse:`
branch the tag is deleted everywhere (`str.replace`), the text is
stripped and reversed, and the GAIA special cases for
"opposite"/"left"/"right" are applied to the lowered reversed text.
The surrounding `try`/`except` is total here: no branch of the model can
fail, so the error branch is unreachable and the result is a plain
string. -/
def TextPreprocesser.forward (input : List Char) : List Char :=
  if leadsWith revTag input then
    let reversed_text := (pyStrip (replaceAll revTag input)).reverse
    if hasSub oppositeWord (toLowerL reversed_text) && hasSub leftWord (toLowerL reversed_text) then
      rightWord
    else if hasSub oppositeWord (toLowerL reversed_text) && hasSub rightWord (toLowerL reversed_text) then
      leftWord
    else
      reversed_text
  else if leadsWith upperTag input then
    toUpperL (pyStrip (replaceAll upperTag input))
  else if leadsWith lowerTag input then
    toLowerL (pyStrip (replaceAll lowerTag input))
  else if leadsWith countTag input then
    natToChars (pyStrip (replaceAll countTag input)).length
  else if leadsWith extractTag input then
    let nums := findNums (pyStrip (replaceAll extractTag input))
    if nums.isEmpty then "No numbers found".toList else joinSep ", ".toList nums
  else if leadsWith wordCountTag input then
    natToChars (countWords (pyStrip (replaceAll wordCountTag input)))
  else
    "Unsupported operation. Available: reverse:, upper:, lower:, count:, extract_numbers:, word_count:".toList

/-- Outcome of the SymPy pipeline `simplify(sympify(input))` as observed
by `MathSolver.forward`: an exception (caught by the wrapper), or a
resulting expression that is numeric (rendered through `evalf`) or
symbolic (rendered through `str`). -/
inductive SympyOutcome where
  | raised (msg : List Char)
  | numeric (evalfStr : List Char)
  | symbolic (exprStr : List Char)

/-- `MathSolver.forward` (src/tools.py lines 57-66): the whole body sits
in a `try` whose `except` clause catches every exception and returns a
descriptive string, so the wrapper never lets an exception escape. -/
def MathSolver.forward (sympy : List Char → SympyOutcome) (input : List Char) :
    Except (List Char) (List Char) :=
  match sympy input with
  | .raised e => .ok ("Math error: ".toList ++ e)
  | .numeric s => .ok s
  | .symbolic s => .ok s

/-- `WikipediaTitleFinder.forward` (src/tools.py lines 194-196): calls
`wikipedia.search(query)` with no exception handler, then joins the
titles (or reports "No results." on an empty list).  An exception raised
by the search call therefore propagates out of `forward`. -/
def WikipediaTitleFinder.forward
    (search : List Char → Except (List Char) (List (List Char))) (query : List Char) :
    Except (List Char) (List Char) :=
  match search query with
  | .error e => .error e
  | .ok results =>
    .ok (if results.isEmpty then "No results.".toList else joinSep ", ".toList results)

/-- A tool invocation ended with a string result (no exception escaped). -/
def returnsString (r : Except (List Char) (List Char)) : Bool :=
  match r with
  | .ok _ => true
  | .error _ => false

/-! ## Data model (src/app_optimized.py) -/

/-- A question record fetched from the scoring service. -/
structure Question where
  task_id : String
  question : String
deriving DecidableEq, Repr

/-- A result record produced by the batch runner. -/
structure ResultRec where
  task_id : String
  question : String
  submitted_answer : String
deriving DecidableEq, Repr

/-- `BATCH_SIZE = 5` (src/app_optimized.py line 18). -/
def BATCH_SIZE : Nat := 5

/-- `MAX_WORKERS = 3` (src/app_optimized.py line 17). -/
def MAX_WORKERS : Nat := 3

namespace AnswerCache

/-- `AnswerCache.get`, i.e. `dict.get(task_id)` on the in-memory mapping:
the value bound to the key, if any (association-list model, first
binding wins). -/
def get (c : List (String × String)) (task_id : String) : Option String :=
  match c with
  | [] => none
  | (k, v) :: rest => if k = task_id then some v else get rest task_id

/-- `AnswerCache.set`, i.e. `self._cache[task_id] = answer` followed by a
persist whose failures are swallowed: overwrite the existing binding or
append a new one.  The persisted file plays no further role in the
model, so `set` is the mapping update alone. -/
def set (c : List (String × String)) (task_id answer : String) : List (String × String) :=
  match c with
  | [] => [(task_id, answer)]
  | (k, v) :: rest =>
    if k = task_id then (k, answer) :: rest else (k, v) :: set rest task_id answer

/-- State of the cache file on disk when the cache is constructed:
absent, present but unreadable (`open`/`json.load` raises), or present
with a parsed mapping. -/
inductive CacheFile where
  | missing
  | unreadable (msg : String)
  | readable (entries : List (String × String))

/-- `AnswerCache._load_cache`: a missing file yields the empty mapping,
and any exception while opening or parsing is caught (logged) and also
yields the empty mapping.  The function is total by construction — the
`try`/`except` swallows every failure. -/
def load_cache : CacheFile → List (String × String)
  | .missing => []
  | .unreadable _ => []
  | .readable m => m

end AnswerCache

/-- Python truthiness of the `Optional[str]` returned by
`AnswerCache.get`: `None` and the empty string are falsy. -/
def truthy : Option String → Bool
  | none => false
  | some s => !(s == "")

/-- The agent as invoked by `AgentRunner` (`self.agent(question)`):
either returns an answer string or raises. -/
abbrev AgentF := String → Except String String

/-- Output of one `process_question` call: the returned
`(task_id, answer)` pair, the cache mapping afterwards, and the number
of agent invocations performed (0 or 1). -/
structure StepOut where
  result : String × String
  cache : List (String × String)
  calls : Nat
deriving DecidableEq, Repr

/-- `AgentRunner.process_question` (src/app_optimized.py lines 77-100).
With `use_cache` set, a truthy cached answer is returned without
invoking the agent.  Otherwise the agent is invoked (a missing agent is
an exception caught by the handler below); an exception from the agent
is caught and turned into an `"AGENT ERROR: ..."` answer with the cache
left untouched; a successful answer is cached when `use_cache` is set. -/
def process_question (agent : Option AgentF) (cache : List (String × String))
    (task_id question : String) (use_cache : Bool) : StepOut :=
  if use_cache && truthy (AnswerCache.get cache task_id) then
    ⟨(task_id, (AnswerCache.get cache task_id).getD ""), cache, 0⟩
  else
    match agent with
    | none => ⟨(task_id, "AGENT ERROR: Agent not initialized"), cache, 0⟩
    | some f =>
      match f question with
      | .error e => ⟨(task_id, "AGENT ERROR: " ++ e), cache, 1⟩
      | .ok answer =>
        ⟨(task_id, answer),
          if use_cache then AnswerCache.set cache task_id answer else cache, 1⟩

/-- Output of a batch run: the result records, the final cache mapping,
and the total number of agent invocations. -/
structure RunOut where
  results : List ResultRec
  cache : List (String × String)
  calls : Nat
deriving DecidableEq, Repr

/-- Sequential core of the executor loop: process the questions one
after the other, threading the cache and collecting one result record
per question.  The thread pool completes the items of a batch in some
scheduler-dependent order; this determinization uses submission order
(the claims settled below are insensitive to the intra-batch
permutation, and the barrier between batches is modelled separately by
`RunTrace`). -/
def runItems (agent : Option AgentF) (use_cache : Bool) :
    List (String × String) → List Question → RunOut
  | cache, [] => ⟨[], cache, 0⟩
  | cache, q :: qs =>
    let s := process_question agent cache q.task_id q.question use_cache
    let rest := runItems agent use_cache s.cache qs
    ⟨⟨s.result.1, q.question, s.result.2⟩ :: rest.results, rest.cache, s.calls + rest.calls⟩

/-- The slicing `questions_data[batch_start:batch_end]` performed by
`for batch_start in range(0, total, BATCH_SIZE)` with `BATCH_SIZE = 5`:
consecutive batches of five questions, the last possibly shorter. -/
def chunks5 : List α → List (List α)
  | [] => []
  | a :: b :: c :: d :: e :: rest => [a, b, c, d, e] :: chunks5 rest
  | l => [l]

/-- Concatenation of a list of batches. -/
def joinAll : List (List α) → List α
  | [] => []
  | b :: bs => b ++ joinAll bs

/-- The batch loop of `process_questions_parallel`: drain each batch
completely before submitting the next one. -/
def runBatches (agent : Option AgentF) (use_cache : Bool) :
    List (String × String) → List (List Question) → RunOut
  | cache, [] => ⟨[], cache, 0⟩
  | cache, b :: bs =>
    let rb := runItems agent use_cache cache b
    let rest := runBatches agent use_cache rb.cache bs
    ⟨rb.results ++ rest.results, rest.cache, rb.calls + rest.calls⟩

/-- `AgentRunner.process_questions_parallel` (src/app_optimized.py lines
102-153).  `init` is the outcome of `initialize_agent()`: `none` means
the construction of `JarvisAgent` raised, in which case the method
reports the failure and returns `[]` before touching any item; `some
agent` is the initialized agent.  The questions are processed in
`BATCH_SIZE`-chunks; every item yields exactly one result record
(`process_question` catches agent exceptions itself, and the collection
loop has a second catch-all producing a `"PROCESSING ERROR"` record,
unreachable in the model because `process_question` is total). -/
def process_questions_parallel (init : Option AgentF) (cache : List (String × String))
    (questions_data : List Question) (use_cache : Bool) : RunOut :=
  match init with
  | none => ⟨[], cache, 0⟩
  | some agent => runBatches (some agent) use_cache cache (chunks5 questions_data)

/-- Process-wide UI state (src/app_optimized.py lines 221-228). -/
structure AppState where
  questions_data : List Question
  processed_results : List ResultRec
  is_processing : Bool
  is_submitting : Bool
deriving DecidableEq, Repr

/-- Outcome of `process_questions_async`: either an immediate
informational message (no run started), or a started run (modelled to
completion, including the `finally` reset of the flag). -/
inductive AsyncOutcome where
  | message (m : String)
  | started
deriving DecidableEq, Repr

/-- Observable effect of one `process_questions_async` invocation. -/
structure AsyncOut where
  outcome : AsyncOutcome
  state : AppState
  cache : List (String × String)
  calls : Nat
deriving DecidableEq, Repr

/-- `process_questions_async` (src/app_optimized.py lines 230-257).
With no questions loaded, or with `is_processing` already set, the
function returns at once with an informational message and starts
nothing.  Otherwise it sets the flag, runs the batch processor, stores
the results and resets the flag (`finally`); the post-state of the
completed background thread is returned. -/
def process_questions_async (init : Option AgentF) (cache : List (String × String))
    (st : AppState) (use_cache : Bool) : AsyncOut :=
  if st.questions_data.isEmpty then
    ⟨.message "No questions loaded. Please fetch questions first.", st, cache, 0⟩
  else if st.is_processing then
    ⟨.message "Already processing questions...", st, cache, 0⟩
  else
    let r := process_questions_parallel init cache st.questions_data use_cache
    ⟨.started,
      { st with processed_results := r.results, is_processing := false },
      r.cache, r.calls⟩

/-! ## Event-trace model of the batch barrier

`process_questions_parallel` opens one `ThreadPoolExecutor` per batch
and iterates `as_completed` over all of the batch's futures before the
`for` loop advances, so a whole-run schedule is the concatenation of
per-batch schedules.  Inside a batch the pool may interleave items
arbitrarily (the `MAX_WORKERS` bound only thins this set of schedules
further, so properties proved for all batch traces cover the pooled
ones). -/

/-- Scheduling events: a worker begins, or finishes, the item at input
position `i`. -/
inductive Ev where
  | start (i : Nat)
  | finish (i : Nat)
deriving DecidableEq, Repr

/-- The input position an event belongs to. -/
def evIdx : Ev → Nat
  | .start i => i
  | .finish i => i

/-- Number of occurrences of `e` in `t`. -/
def countEv (t : List Ev) (e : Ev) : Nat :=
  match t with
  | [] => 0
  | x :: rest => (if x = e then 1 else 0) + countEv rest e

/-- Position of the first occurrence of `e` in `t` (length of `t` if
`e` is absent). -/
def firstIdx (t : List Ev) (e : Ev) : Nat :=
  match t with
  | [] => 0
  | x :: rest => if x = e then 0 else firstIdx rest e + 1

/-- `t` is a possible schedule of one `ThreadPoolExecutor` block
draining the batch `items`: every event belongs to the batch, every
item starts exactly once and finishes exactly once, and an item starts
before it finishes. -/
def isBatchTrace (items : List Nat) (t : List Ev) : Bool :=
  t.all (fun e => decide (evIdx e ∈ items)) &&
  items.all (fun i =>
    (countEv t (.start i) == 1) && (countEv t (.finish i) == 1) &&
    decide (firstIdx t (.start i) < firstIdx t (.finish i)))

/-- Schedules of the batch loop over the given list of batches: one
batch trace per batch, concatenated in loop order. -/
inductive RunTrace : List (List Nat) → List Ev → Prop
  | nil : RunTrace [] []
  | cons {b : List Nat} {bs : List (List Nat)} {tb t : List Ev} :
      isBatchTrace b tb = true → RunTrace bs t → RunTrace (b :: bs) (tb ++ t)

/-- Schedules of `process_questions_parallel` over `n` input items: the
batches are the `BATCH_SIZE`-chunks of the input positions, exactly as
the loop `for batch_start in range(0, total, BATCH_SIZE)` forms them. -/
def RunTraceOf (n : Nat) (t : List Ev) : Prop :=
  RunTrace (chunks5 (List.range n)) t

/-- `e` occurs in `t`, strictly before the first occurrence of `e2`. -/
def precedes (t : List Ev) (e e2 : Ev) : Prop :=
  e ∈ t ∧ e2 ∈ t ∧ firstIdx t e < firstIdx t e2

/-- The reversed text computed by the `reverse:` branch of
`TextPreprocesser.forward` on the input `"reverse:" ++ s`: the tag is
deleted everywhere, the remainder stripped, and the result reversed. -/
def reversedTextOf (s : List Char) : List Char :=
  (pyStrip (replaceAll revTag (revTag ++ s))).reverse

/-! ## Helper lemmas -/

theorem leadsWith_append (p s : List Char) : leadsWith p (p ++ s) = true := by
  induction p with
  | nil => rfl
  | cons c cs ih => simp [leadsWith, ih]

namespace AnswerCache

theorem get_set_self (c : List (String × String)) (k v : String) :
    get (set c k v) k = some v := by
  induction c with
  | nil => simp [get, set]
  | cons kv rest ih =>
    obtain ⟨k0, v0⟩ := kv
    by_cases h : k0 = k
    · simp [get, set, h]
    · simp [get, set, h, ih]

theorem get_set_other (c : List (String × String)) (k k0 v : String) (h : k0 ≠ k) :
    get (set c k v) k0 = get c k0 := by
  induction c with
  | nil => simp [get, set, Ne.symm h]
  | cons kv rest ih =>
    obtain ⟨k1, v1⟩ := kv
    by_cases h1 : k1 = k
    · subst h1
      simp [get, set, Ne.symm h]
    · by_cases h2 : k1 = k0
      · simp [get, set, h1, h2, h]
      · simp [get, set, h1, h2, ih]

end AnswerCache

theorem process_question_fst (agent : Option AgentF) (c : List (String × String))
    (tid qq : String) (uc : Bool) :
    (process_question agent c tid qq uc).result.1 = tid := by
  unfold process_question
  split
  · rfl
  · cases agent with
    | none => rfl
    | some f =>
      cases hq : f qq with
      | error e => simp [hq]
      | ok a => simp [hq]

theorem process_question_hit (agent : Option AgentF) (c : List (String × String))
    (tid qq : String) (h : truthy (AnswerCache.get c tid) = true) :
    process_question agent c tid qq true =
      ⟨(tid, (AnswerCache.get c tid).getD ""), c, 0⟩ := by
  unfold process_question
  simp [h]

theorem process_question_error (agent : AgentF) (c : List (String × String))
    (tid qq e : String) (uc : Bool)
    (hfail : agent qq = Except.error e)
    (hmiss : uc = false ∨ truthy (AnswerCache.get c tid) = false) :
    process_question (some agent) c tid qq uc = ⟨(tid, "AGENT ERROR: " ++ e), c, 1⟩ := by
  unfold process_question
  rcases hmiss with h | h <;> simp [h, hfail]

theorem process_question_ok (agent : AgentF) (c : List (String × String))
    (tid qq a : String)
    (hok : agent qq = Except.ok a)
    (hmiss : truthy (AnswerCache.get c tid) = false) :
    process_question (some agent) c tid qq true =
      ⟨(tid, a), AnswerCache.set c tid a, 1⟩ := by
  unfold process_question
  simp [hmiss, hok]

theorem process_question_nocache (agent : AgentF) (c : List (String × String))
    (tid qq : String) :
    (process_question (some agent) c tid qq false).calls = 1 := by
  unfold process_question
  cases hq : agent qq <;> simp [hq]

theorem runItems_length (agent : Option AgentF) (uc : Bool)
    (c : List (String × String)) (qs : List Question) :
    (runItems agent uc c qs).results.length = qs.length := by
  induction qs generalizing c with
  | nil => rfl
  | cons q qs ih => simp [runItems, ih]

theorem runItems_taskIds (agent : Option AgentF) (uc : Bool)
    (c : List (String × String)) (qs : List Question) :
    (runItems agent uc c qs).results.map (fun r => r.task_id) =
      qs.map (fun q => q.task_id) := by
  induction qs generalizing c with
  | nil => rfl
  | cons q qs ih => simp [runItems, ih, process_question_fst]

theorem runItems_append (agent : Option AgentF) (uc : Bool)
    (c : List (String × String)) (l1 l2 : List Question) :
    runItems agent uc c (l1 ++ l2) =
      ⟨(runItems agent uc c l1).results ++
         (runItems agent uc (runItems agent uc c l1).cache l2).results,
       (runItems agent uc (runItems agent uc c l1).cache l2).cache,
       (runItems agent uc c l1).calls +
         (runItems agent uc (runItems agent uc c l1).cache l2).calls⟩ := by
  induction l1 generalizing c with
  | nil => simp [runItems]
  | cons q l1 ih => simp [runItems, ih, Nat.add_assoc]

theorem runBatches_eq_runItems (agent : Option AgentF) (uc : Bool)
    (c : List (String × String)) (bs : List (List Question)) :
    runBatches agent uc c bs = runItems agent uc c (joinAll bs) := by
  induction bs generalizing c with
  | nil => rfl
  | cons b bs ih => simp [runBatches, joinAll, runItems_append, ih]

theorem chunks5_joinAll : ∀ (l : List α), joinAll (chunks5 l) = l
  | [] => rfl
  | [_] => rfl
  | [_, _] => rfl
  | [_, _, _] => rfl
  | [_, _, _, _] => rfl
  | a :: b :: c :: d :: e :: rest => by
    simp [chunks5, joinAll, chunks5_joinAll rest]

theorem ppp_some_eq_runItems (agent : AgentF) (c : List (String × String))
    (qs : List Question) (uc : Bool) :
    process_questions_parallel (some agent) c qs uc = runItems (some agent) uc c qs := by
  show runBatches (some agent) uc c (chunks5 qs) = _
  rw [runBatches_eq_runItems, chunks5_joinAll]

theorem runItems_cached_stable (agent : AgentF) (qs : List Question)
    (c : List (String × String))
    (h : ∀ q ∈ qs, ∃ a, agent q.question = Except.ok a ∧ a ≠ "") :
    (∀ k, truthy (AnswerCache.get c k) = true →
        AnswerCache.get (runItems (some agent) true c qs).cache k = AnswerCache.get c k) ∧
    (∀ q ∈ qs, truthy (AnswerCache.get (runItems (some agent) true c qs).cache q.task_id) = true) ∧
    (runItems (some agent) true c qs).results.map (fun r => r.submitted_answer) =
      qs.map (fun q => (AnswerCache.get (runItems (some agent) true c qs).cache q.task_id).getD "") := by
  induction qs generalizing c with
  | nil =>
    exact ⟨fun k _ => rfl, fun q hq => absurd hq (List.not_mem_nil q), rfl⟩
  | cons q qs ih =>
    have hrest : ∀ p ∈ qs, ∃ a, agent p.question = Except.ok a ∧ a ≠ "" :=
      fun p hp => h p (List.mem_cons_of_mem q hp)
    by_cases hc : truthy (AnswerCache.get c q.task_id) = true
    · obtain ⟨ih1, ih2, ih3⟩ := ih c hrest
      refine ⟨?_, ?_, ?_⟩ <;>
        simp only [runItems, process_question_hit (some agent) c q.task_id q.question hc]
      · exact fun k hk => ih1 k hk
      · intro p hp
        rcases List.mem_cons.mp hp with h1 | h1
        · subst h1
          rw [ih1 p.task_id hc]
          exact hc
        · exact ih2 p h1
      · simp only [List.map_cons, ih3, ih1 q.task_id hc]
    · have hcf : truthy (AnswerCache.get c q.task_id) = false := by
        simpa using hc
      obtain ⟨a, hok, hne⟩ := h q (List.mem_cons_self q qs)
      have htr : truthy (AnswerCache.get (AnswerCache.set c q.task_id a) q.task_id) = true := by
        simp [AnswerCache.get_set_self, truthy, hne]
      obtain ⟨ih1, ih2, ih3⟩ := ih (AnswerCache.set c q.task_id a) hrest
      refine ⟨?_, ?_, ?_⟩ <;>
        simp only [runItems, process_question_ok agent c q.task_id q.question a hok hcf]
      · intro k hk
        have hkne : k ≠ q.task_id := by
          intro hh
          rw [hh] at hk
          rw [hk] at hcf
          cases hcf
        have hk2 : truthy (AnswerCache.get (AnswerCache.set c q.task_id a) k) = true := by
          rw [AnswerCache.get_set_other c q.task_id k a hkne]
          exact hk
        rw [ih1 k hk2, AnswerCache.get_set_other c q.task_id k a hkne]
      · intro p hp
        rcases List.mem_cons.mp hp with h1 | h1
        · subst h1
          rw [ih1 p.task_id htr]
          exact htr
        · exact ih2 p h1
      · simp only [List.map_cons, ih3, ih1 q.task_id htr, AnswerCache.get_set_self,
          Option.getD_some]
  
theorem runItems_all_cached (agent : AgentF) (qs : List Question)
    (c : List (String × String))
    (h : ∀ q ∈ qs, truthy (AnswerCache.get c q.task_id) = true) :
    runItems (some agent) true c qs =
      ⟨qs.map (fun q => ⟨q.task_id, q.question, (AnswerCache.get c q.task_id).getD ""⟩),
       c, 0⟩ := by
  induction qs with
  | nil => rfl
  | cons q qs ih =>
    have hq := h q (List.mem_cons_self q qs)
    simp [runItems, process_question_hit (some agent) c q.task_id q.question hq,
      ih (fun p hp => h p (List.mem_cons_of_mem q hp))]

theorem firstIdx_append_left {t1 : List Ev} (t2 : List Ev) {e : Ev} (h : e ∈ t1) :
    firstIdx (t1 ++ t2) e = firstIdx t1 e := by
  induction t1 with
  | nil => cases h
  | cons x rest ih =>
    by_cases hx : x = e
    · simp [firstIdx, hx]
    · have hmem : e ∈ rest := by
        rcases List.mem_cons.mp h with h1 | h1
        · exact absurd h1.symm hx
        · exact h1
      simp [firstIdx, hx, ih hmem]

theorem firstIdx_append_right {t1 : List Ev} (t2 : List Ev) {e : Ev} (h : e ∉ t1) :
    firstIdx (t1 ++ t2) e = t1.length + firstIdx t2 e := by
  induction t1 with
  | nil => simp [firstIdx]
  | cons x rest ih =>
    have hx : x ≠ e := fun hh => h (hh ▸ List.mem_cons_self x rest)
    have hmem : e ∉ rest := fun hh => h (List.mem_cons_of_mem x hh)
    simp [firstIdx, hx, ih hmem]
    omega

theorem firstIdx_lt_length {t : List Ev} {e : Ev} (h : e ∈ t) :
    firstIdx t e < t.length := by
  induction t with
  | nil => cases h
  | cons x rest ih =>
    by_cases hx : x = e
    · simp [firstIdx, hx]
    · have hmem : e ∈ rest := by
        rcases List.mem_cons.mp h with h1 | h1
        · exact absurd h1.symm hx
        · exact h1
      have := ih hmem
      simp [firstIdx, hx]
      omega

theorem mem_of_countEv_eq_one {t : List Ev} {e : Ev} (h : countEv t e = 1) : e ∈ t := by
  induction t with
  | nil => simp [countEv] at h
  | cons x rest ih =>
    by_cases hx : x = e
    · exact hx ▸ List.mem_cons_self x rest
    · simp [countEv, hx] at h
      exact List.mem_cons_of_mem x (ih h)

theorem batchTrace_events {items : List Nat} {t : List Ev}
    (hb : isBatchTrace items t = true) {e : Ev} (he : e ∈ t) : evIdx e ∈ items := by
  unfold isBatchTrace at hb
  rw [Bool.and_eq_true] at hb
  have h1 := hb.1
  rw [List.all_eq_true] at h1
  simpa using h1 e he

theorem batchTrace_item {items : List Nat} {t : List Ev}
    (hb : isBatchTrace items t = true) {i : Nat} (hi : i ∈ items) :
    countEv t (.start i) = 1 ∧ countEv t (.finish i) = 1 ∧
      firstIdx t (.start i) < firstIdx t (.finish i) := by
  unfold isBatchTrace at hb
  rw [Bool.and_eq_true] at hb
  have h2 := hb.2
  rw [List.all_eq_true] at h2
  have h3 := h2 i hi
  simp only [Bool.and_eq_true, beq_iff_eq, decide_eq_true_eq] at h3
  exact ⟨h3.1.1, h3.1.2, h3.2⟩

theorem batchTrace_start_mem {items : List Nat} {t : List Ev} {i : Nat}
    (hb : isBatchTrace items t = true) (hi : i ∈ items) : Ev.start i ∈ t :=
  mem_of_countEv_eq_one (batchTrace_item hb hi).1

theorem batchTrace_finish_mem {items : List Nat} {t : List Ev} {i : Nat}
    (hb : isBatchTrace items t = true) (hi : i ∈ items) : Ev.finish i ∈ t :=
  mem_of_countEv_eq_one (batchTrace_item hb hi).2.1

theorem batchTrace_start_not_mem {items : List Nat} {t : List Ev} {i : Nat}
    (hb : isBatchTrace items t = true) (hi : i ∉ items) : Ev.start i ∉ t :=
  fun hmem => hi (batchTrace_events hb hmem)

theorem batchTrace_finish_not_mem {items : List Nat} {t : List Ev} {i : Nat}
    (hb : isBatchTrace items t = true) (hi : i ∉ items) : Ev.finish i ∉ t :=
  fun hmem => hi (batchTrace_events hb hmem)

theorem runTrace_start_mem {bs : List (List Nat)} {t : List Ev} (h : RunTrace bs t) :
    ∀ (m j : Nat), j ∈ bs.getD m [] → Ev.start j ∈ t := by
  induction h with
  | nil =>
    intro m j hj
    simp at hj
  | cons hb ht ih =>
    intro m j hj
    cases m with
    | zero =>
      simp only [List.getD_cons_zero] at hj
      exact List.mem_append_left _ (batchTrace_start_mem hb hj)
    | succ m =>
      simp only [List.getD_cons_succ] at hj
      exact List.mem_append_right _ (ih m j hj)

theorem mem_joinAll_of_getD {bs : List (List Nat)} {m j : Nat}
    (hj : j ∈ bs.getD m []) : j ∈ joinAll bs := by
  induction bs generalizing m with
  | nil => simp at hj
  | cons b bs ih =>
    show j ∈ b ++ joinAll bs
    cases m with
    | zero =>
      simp only [List.getD_cons_zero] at hj
      exact List.mem_append_left _ hj
    | succ m =>
      simp only [List.getD_cons_succ] at hj
      exact List.mem_append_right _ (ih hj)

theorem runTrace_barrier {bs : List (List Nat)} {t : List Ev} (h : RunTrace bs t) :
    (joinAll bs).Nodup → ∀ (k k2 i j : Nat), k < k2 →
      i ∈ bs.getD k [] → j ∈ bs.getD k2 [] →
      precedes t (.finish i) (.start j) := by
  induction h with
  | nil =>
    intro _ k k2 i j _ hi _
    simp at hi
  | @cons b bs' tb t' hb ht ih =>
    intro hd k k2 i j hkk hi hj
    have hd' : b.Nodup ∧ (joinAll bs').Nodup ∧ b.Disjoint (joinAll bs') := by
      rw [show joinAll (b :: bs') = b ++ joinAll bs' from rfl, List.nodup_append] at hd
      exact hd
    cases k2 with
    | zero => omega
    | succ m =>
      simp only [List.getD_cons_succ] at hj
      have hjj : j ∈ joinAll bs' := mem_joinAll_of_getD hj
      cases k with
      | zero =>
        simp only [List.getD_cons_zero] at hi
        have hjb : j ∉ b := fun hh => hd'.2.2 hh hjj
        have hfin : Ev.finish i ∈ tb := batchTrace_finish_mem hb hi
        have hst : Ev.start j ∈ t' := runTrace_start_mem ht m j hj
        have hstnb : Ev.start j ∉ tb := batchTrace_start_not_mem hb hjb
        refine ⟨List.mem_append_left _ hfin, List.mem_append_right _ hst, ?_⟩
        rw [firstIdx_append_left t' hfin, firstIdx_append_right t' hstnb]
        have := firstIdx_lt_length hfin
        omega
      | succ k =>
        simp only [List.getD_cons_succ] at hi
        have hii : i ∈ joinAll bs' := mem_joinAll_of_getD hi
        have hib : i ∉ b := fun hh => hd'.2.2 hh hii
        have hkm : k < m := by omega
        obtain ⟨hm1, hm2, hm3⟩ := ih hd'.2.1 k m i j hkm hi hj
        have hfinnb : Ev.finish i ∉ tb := batchTrace_finish_not_mem hb hib
        have hjb : j ∉ b := fun hh => hd'.2.2 hh hjj
        have hstnb : Ev.start j ∉ tb := batchTrace_start_not_mem hb hjb
        refine ⟨List.mem_append_right _ hm1, List.mem_append_right _ hm2, ?_⟩
        rw [firstIdx_append_right t' hfinnb, firstIdx_append_right t' hstnb]
        omega

/-! ## Claims -/

/-- C1: provided agent initialization succeeds, `process_questions_parallel`
returns exactly one result record per input question record — the same
number of records, carrying the input `task_id`s in order — no matter how
the agent behaves on individual items; if initialization fails, it returns
the empty result list at once, with the cache untouched and zero agent
invocations, before any item is processed. -/
theorem claim1 (agent : AgentF) (cache : List (String × String))
    (qs : List Question) (uc : Bool) :
    (process_questions_parallel (some agent) cache qs uc).results.length = qs.length ∧
    (process_questions_parallel (some agent) cache qs uc).results.map (fun r => r.task_id) =
      qs.map (fun q => q.task_id) ∧
    process_questions_parallel none cache qs uc = ⟨[], cache, 0⟩ := by
  rw [ppp_some_eq_runItems]
  exact ⟨runItems_length _ _ _ _, runItems_taskIds _ _ _ _, rfl⟩

/-- C2 counterexample: an agent that returns the empty string refutes the
claim.  The first run invokes the agent once and caches `""` for the
task, yet the second run — the task was answered and cached — invokes the
agent again, because the cache-hit test `if cached_answer:` treats the
cached empty string as falsy.  So the second run performs one additional
agent invocation, not zero. -/
theorem claim2_counterexample :
    (process_questions_parallel (some fun _ => Except.ok "") []
        [⟨"task-1", "question one"⟩] true).cache = [("task-1", "")] ∧
    (process_questions_parallel (some fun _ => Except.ok "")
        (process_questions_parallel (some fun _ => Except.ok "") []
          [⟨"task-1", "question one"⟩] true).cache
        [⟨"task-1", "question one"⟩] true).calls ≠ 0 := by
  decide

/-- C2 (amended): running the batch runner twice with `use_cache = true` on
the same inputs performs zero agent invocations on the second run, yields
identical `submitted_answer` values, and leaves the cache unchanged —
provided every agent invocation of the first run returns successfully with
a non-empty answer string.  (An item whose agent call raised, or whose
answer was the empty string, is not served from the cache — the hit test
uses Python truthiness — and is invoked again on the second run.) -/
theorem claim2_amended (agent : AgentF) (cache : List (String × String))
    (qs : List Question)
    (h : ∀ q ∈ qs, ∃ a, agent q.question = Except.ok a ∧ a ≠ "") :
    (process_questions_parallel (some agent)
        (process_questions_parallel (some agent) cache qs true).cache qs true).calls = 0 ∧
    (process_questions_parallel (some agent)
        (process_questions_parallel (some agent) cache qs true).cache qs true).results.map
        (fun r => r.submitted_answer) =
      (process_questions_parallel (some agent) cache qs true).results.map
        (fun r => r.submitted_answer) ∧
    (process_questions_parallel (some agent)
        (process_questions_parallel (some agent) cache qs true).cache qs true).cache =
      (process_questions_parallel (some agent) cache qs true).cache := by
  simp only [ppp_some_eq_runItems]
  obtain ⟨h1, h2, h3⟩ := runItems_cached_stable agent qs cache h
  rw [runItems_all_cached agent qs _ h2]
  refine ⟨rfl, ?_, rfl⟩
  rw [List.map_map, h3]
  rfl

/-- Witness for the amended C2: a concrete one-item run with a non-empty
answer is served from the cache on the second pass with zero agent
invocations. -/
theorem claim2_amended_witness :
    (process_questions_parallel (some fun _ => Except.ok "42")
      (process_questions_parallel (some fun _ => Except.ok "42") []
        [⟨"t1", "what?"⟩] true).cache
      [⟨"t1", "what?"⟩] true).calls = 0 := by
  have h := claim2_amended (fun _ => Except.ok "42") [] [⟨"t1", "what?"⟩]
    (fun q _ => ⟨"42", rfl, by decide⟩)
  exact h.1

/-- C3 counterexample: `WikipediaTitleFinder.forward` has no exception
handler, so when the `wikipedia.search` call raises (e.g. a network
failure) the exception crosses the tool boundary instead of becoming a
string result — refuting the claim for this wrapper at the concrete query
"Albert Einstein". -/
theorem claim3_counterexample :
    returnsString
      (WikipediaTitleFinder.forward
        (fun _ => Except.error "ConnectionError: wikipedia unreachable".toList)
        "Albert Einstein".toList) = false := rfl

/-- C3 (amended): `MathSolver.forward` converts every failure of the SymPy
pipeline into a descriptive string result, for every input and every
behaviour of the external call — but `WikipediaTitleFinder.forward`
raises exactly when the underlying `wikipedia.search` call raises, so the
no-exception guarantee holds for the wrappers with handlers and not for
`WikipediaTitleFinder`. -/
theorem claim3_amended (sympy : List Char → SympyOutcome)
    (search : List Char → Except (List Char) (List (List Char)))
    (input query : List Char) :
    returnsString (MathSolver.forward sympy input) = true ∧
    (∀ e, WikipediaTitleFinder.forward search query = Except.error e ↔
        search query = Except.error e) := by
  constructor
  · cases hs : sympy input <;> simp [MathSolver.forward, hs, returnsString]
  · intro e
    cases hs : search query with
    | error e2 => simp [WikipediaTitleFinder.forward, hs]
    | ok l => simp [WikipediaTitleFinder.forward, hs]

/-- C4: if the agent raises on one item of a batch run (and the item is
not served from the cache), the runner still produces one result record
per input: the failing item's record carries the formatted
`"AGENT ERROR: ..."` string, exactly one agent invocation is spent on it
(no retry), the failure leaves the cache unchanged, and the remaining
items are processed exactly as they would have been. -/
theorem claim4 (agent : AgentF) (cache : List (String × String))
    (l1 l2 : List Question) (q : Question) (e : String) (uc : Bool)
    (hfail : agent q.question = Except.error e)
    (hmiss : uc = false ∨
      truthy (AnswerCache.get
        (process_questions_parallel (some agent) cache l1 uc).cache q.task_id) = false) :
    (process_questions_parallel (some agent) cache (l1 ++ q :: l2) uc).results =
      (process_questions_parallel (some agent) cache l1 uc).results ++
        ⟨q.task_id, q.question, "AGENT ERROR: " ++ e⟩ ::
          (process_questions_parallel (some agent)
            (process_questions_parallel (some agent) cache l1 uc).cache l2 uc).results ∧
    (process_questions_parallel (some agent) cache (l1 ++ q :: l2) uc).cache =
      (process_questions_parallel (some agent)
        (process_questions_parallel (some agent) cache l1 uc).cache l2 uc).cache ∧
    (process_questions_parallel (some agent) cache (l1 ++ q :: l2) uc).calls =
      (process_questions_parallel (some agent) cache l1 uc).calls + 1 +
        (process_questions_parallel (some agent)
          (process_questions_parallel (some agent) cache l1 uc).cache l2 uc).calls ∧
    (process_questions_parallel (some agent) cache (l1 ++ q :: l2) uc).results.length =
      l1.length + 1 + l2.length := by
  simp only [ppp_some_eq_runItems] at hmiss ⊢
  rw [runItems_append]
  have hstep : runItems (some agent) uc (runItems (some agent) uc cache l1).cache (q :: l2) =
      ⟨⟨q.task_id, q.question, "AGENT ERROR: " ++ e⟩ ::
         (runItems (some agent) uc (runItems (some agent) uc cache l1).cache l2).results,
       (runItems (some agent) uc (runItems (some agent) uc cache l1).cache l2).cache,
       1 + (runItems (some agent) uc (runItems (some agent) uc cache l1).cache l2).calls⟩ := by
    simp only [runItems,
      process_question_error agent _ q.task_id q.question e uc hfail hmiss]
  rw [hstep]
  refine ⟨rfl, rfl, ?_, ?_⟩
  · show (runItems (some agent) uc cache l1).calls +
        (1 + (runItems (some agent) uc (runItems (some agent) uc cache l1).cache l2).calls) =
      (runItems (some agent) uc cache l1).calls + 1 +
        (runItems (some agent) uc (runItems (some agent) uc cache l1).cache l2).calls
    omega
  · simp [runItems_length]
    omega

/-- Witness for C4: in a concrete five-item batch whose agent raises on
the third item, the run still yields five result records. -/
theorem claim4_witness :
    (process_questions_parallel
      (some fun s => if s = "q3" then Except.error "boom" else Except.ok ("answer to " ++ s))
      [] ([⟨"t1", "q1"⟩, ⟨"t2", "q2"⟩] ++ ⟨"t3", "q3"⟩ :: [⟨"t4", "q4"⟩, ⟨"t5", "q5"⟩])
      true).results.length = 5 := by
  have h := claim4
    (fun s => if s = "q3" then Except.error "boom" else Except.ok ("answer to " ++ s))
    [] [⟨"t1", "q1"⟩, ⟨"t2", "q2"⟩] [⟨"t4", "q4"⟩, ⟨"t5", "q5"⟩] ⟨"t3", "q3"⟩ "boom" true
    rfl (Or.inr (by decide))
  exact h.2.2.2

/-- C5: the batch loop never starts an item of a later batch before every
item of an earlier batch has finished: in any schedule of a run over `n`
input items, if `i` lies in batch `k` and `j` in batch `k2` with
`k < k2`, the finish event of `i` strictly precedes the start event of
`j`.  In particular, for a 7-item input, items at positions 0-4 all
finish before position 5 or 6 starts. -/
theorem claim5 {n : Nat} {t : List Ev} (h : RunTraceOf n t) (k k2 i j : Nat)
    (hkk : k < k2)
    (hi : i ∈ (chunks5 (List.range n)).getD k [])
    (hj : j ∈ (chunks5 (List.range n)).getD k2 []) :
    precedes t (Ev.finish i) (Ev.start j) :=
  runTrace_barrier h (by rw [chunks5_joinAll]; exact List.nodup_range n) k k2 i j hkk hi hj

/-- Witness for C5: a concrete valid schedule of a 7-item run, in which
item 1 (position 0) finishes before item 6 (position 5) starts. -/
theorem claim5_witness :
    precedes
      ([Ev.start 0, Ev.finish 0, Ev.start 1, Ev.finish 1, Ev.start 2, Ev.finish 2,
        Ev.start 3, Ev.finish 3, Ev.start 4, Ev.finish 4] ++
       ([Ev.start 5, Ev.finish 5, Ev.start 6, Ev.finish 6] ++ []))
      (Ev.finish 0) (Ev.start 5) := by
  have hch : chunks5 (List.range 7) = [[0, 1, 2, 3, 4], [5, 6]] := by decide
  have hrun : RunTraceOf 7
      ([Ev.start 0, Ev.finish 0, Ev.start 1, Ev.finish 1, Ev.start 2, Ev.finish 2,
        Ev.start 3, Ev.finish 3, Ev.start 4, Ev.finish 4] ++
       ([Ev.start 5, Ev.finish 5, Ev.start 6, Ev.finish 6] ++ [])) := by
    show RunTrace (chunks5 (List.range 7)) _
    rw [hch]
    exact RunTrace.cons (by decide) (RunTrace.cons (by decide) RunTrace.nil)
  exact claim5 hrun 0 1 0 5 (by decide) (by decide) (by decide)

/-- C6: with `use_cache = false` the agent is invoked exactly once for
every input item, whatever entries the cache already holds. -/
theorem claim6 (agent : AgentF) (cache : List (String × String)) (qs : List Question) :
    (process_questions_parallel (some agent) cache qs false).calls = qs.length := by
  rw [ppp_some_eq_runItems]
  induction qs generalizing cache with
  | nil => rfl
  | cons q qs ih =>
    simp [runItems, process_question_nocache, ih]
    omega

/-- C7: loading the answer cache from a missing or unparseable file is
total in the model (the exception is caught inside `_load_cache`),
yields the empty mapping, and subsequent `get`/`set` operations on the
loaded cache behave exactly as on an initially empty cache. -/
theorem claim7 :
    AnswerCache.load_cache AnswerCache.CacheFile.missing = [] ∧
    (∀ msg, AnswerCache.load_cache (AnswerCache.CacheFile.unreadable msg) = []) ∧
    (∀ tid, AnswerCache.get (AnswerCache.load_cache AnswerCache.CacheFile.missing) tid =
      AnswerCache.get [] tid) ∧
    (∀ msg tid,
      AnswerCache.get (AnswerCache.load_cache (AnswerCache.CacheFile.unreadable msg)) tid =
        AnswerCache.get [] tid) ∧
    (∀ tid a, AnswerCache.set (AnswerCache.load_cache AnswerCache.CacheFile.missing) tid a =
      AnswerCache.set [] tid a) ∧
    (∀ msg tid a,
      AnswerCache.set (AnswerCache.load_cache (AnswerCache.CacheFile.unreadable msg)) tid a =
        AnswerCache.set [] tid a) :=
  ⟨rfl, fun _ => rfl, fun _ => rfl, fun _ _ => rfl, fun _ _ => rfl, fun _ _ _ => rfl⟩

/-- C8: invoking the batch processor while `is_processing` is set returns
immediately with an informational message; the state and the cache are
untouched, the agent is never invoked, and no run is started or queued.
When questions are loaded, the message is the "Already processing"
notice. -/
theorem claim8 (init : Option AgentF) (cache : List (String × String))
    (st : AppState) (uc : Bool) (h : st.is_processing = true) :
    (∃ m, (process_questions_async init cache st uc).outcome = AsyncOutcome.message m) ∧
    (process_questions_async init cache st uc).state = st ∧
    (process_questions_async init cache st uc).cache = cache ∧
    (process_questions_async init cache st uc).calls = 0 ∧
    (st.questions_data ≠ [] →
      (process_questions_async init cache st uc).outcome =
        AsyncOutcome.message "Already processing questions...") := by
  have hpa : process_questions_async init cache st uc =
      if st.questions_data.isEmpty then
        ⟨.message "No questions loaded. Please fetch questions first.", st, cache, 0⟩
      else ⟨.message "Already processing questions...", st, cache, 0⟩ := by
    unfold process_questions_async
    by_cases hq : st.questions_data.isEmpty = true <;> simp [hq, h]
  by_cases hq : st.questions_data.isEmpty = true
  · rw [hpa, if_pos hq]
    refine ⟨⟨_, rfl⟩, rfl, rfl, rfl, ?_⟩
    intro hne
    rw [List.isEmpty_iff] at hq
    exact absurd hq hne
  · rw [hpa, if_neg hq]
    exact ⟨⟨_, rfl⟩, rfl, rfl, rfl, fun _ => rfl⟩

/-- Witness for C8: with the `is_processing` flag set, a concrete
invocation performs zero agent calls. -/
theorem claim8_witness :
    (process_questions_async none [] ⟨[⟨"t1", "q1"⟩], [], true, false⟩ true).calls = 0 := by
  have h := claim8 none [] ⟨[⟨"t1", "q1"⟩], [], true, false⟩ true rfl
  exact h.2.2.2.1

/-- C9: on every `reverse:`-prefixed input, when the reversed text
computed by the branch contains both "opposite" and "left"
case-insensitively the tool returns the literal "right"; otherwise when
it contains both "opposite" and "right" it returns the literal "left";
and only in the remaining cases is the reversed text itself returned. -/
theorem claim9 (s : List Char) :
    (hasSub oppositeWord (toLowerL (reversedTextOf s)) = true →
      hasSub leftWord (toLowerL (reversedTextOf s)) = true →
      TextPreprocesser.forward (revTag ++ s) = rightWord) ∧
    (hasSub oppositeWord (toLowerL (reversedTextOf s)) = true →
      hasSub leftWord (toLowerL (reversedTextOf s)) = false →
      hasSub rightWord (toLowerL (reversedTextOf s)) = true →
      TextPreprocesser.forward (revTag ++ s) = leftWord) ∧
    ((hasSub oppositeWord (toLowerL (reversedTextOf s)) = false ∨
      (hasSub leftWord (toLowerL (reversedTextOf s)) = false ∧
       hasSub rightWord (toLowerL (reversedTextOf s)) = false)) →
      TextPreprocesser.forward (revTag ++ s) = reversedTextOf s) := by
  have hlead : leadsWith revTag (revTag ++ s) = true := leadsWith_append revTag s
  unfold TextPreprocesser.forward reversedTextOf
  rw [hlead]
  refine ⟨?_, ?_, ?_⟩
  · intro h1 h2
    simp [h1, h2]
  · intro h1 h2 h3
    simp [h1, h2, h3]
  · intro hcase
    rcases hcase with h1 | ⟨h2, h3⟩
    · simp [h1]
    · simp [h2, h3]

/-- Witness for C9: the GAIA-style reversed question resolves to the
literal "right". -/
theorem claim9_witness :
    TextPreprocesser.forward (revTag ++ "tfel fo etisoppo eht si tahw".toList) = rightWord := by
  have h := (claim9 ("tfel fo etisoppo eht si tahw".toList)).1
  exact h (by decide) (by decide)

/-- C10: with `use_cache = true` and no truthy cache entry for the item,
an agent exception makes `process_question` return the formatted
`"AGENT ERROR: ..."` answer, spend exactly one agent invocation, and
leave the cache mapping entirely unchanged — so a subsequent run finds no
cached answer for this task and invokes the agent again rather than
serving the failure from the cache. -/
theorem claim10 (agent : AgentF) (cache : List (String × String)) (tid qq e : String)
    (hmiss : truthy (AnswerCache.get cache tid) = false)
    (hfail : agent qq = Except.error e) :
    (process_question (some agent) cache tid qq true).result.2 = "AGENT ERROR: " ++ e ∧
    (process_question (some agent) cache tid qq true).cache = cache ∧
    (process_question (some agent) cache tid qq true).calls = 1 := by
  rw [process_question_error agent cache tid qq e true hfail (Or.inr hmiss)]
  exact ⟨rfl, rfl, rfl⟩

/-- Witness for C10: a concrete failing item leaves the empty cache
empty. -/
theorem claim10_witness :
    (process_question (some fun _ => Except.error "boom") [] "t1" "q1" true).cache = [] := by
  have h := claim10 (fun _ => Except.error "boom") [] "t1" "q1" "boom" rfl rfl
  exact h.2.1
